import Mathlib

/-!
# Ruler lifecycle: handover search and bounded flush

A shallow embedding of `pkg/ruler/lifecycle.go`.

* Instants and durations are integers (Go: `time.Time`, `time.Duration` as a
  signed count of nanoseconds); the clock is explicit state.
* The KV store, the clock and the scheduler are the environment: the k-th call
  of `KVStore.Get` has an outcome that may depend on the instant it is issued
  and takes some time, the k-th `time.Sleep` may overshoot, the k-th
  `nextWorkItem` yields an item or nil and takes some time.
* Loops carry a fuel argument; `none` means the fuel ran out.
* Log calls do not influence control flow and are left out.
-/

set_option linter.dupNamespace false

namespace Ruler

/-! ## Data model -/

/-- Modelled from the spec: the lifecycle state of a ring member
(`ring.IngesterState`, declared in the ring package). -/
inductive IngesterState where
  | PENDING
  | JOINING
  | ACTIVE
  | LEAVING
  | LEFT
deriving DecidableEq, Repr

/-- Modelled from the spec: a ring member (`ring.IngesterDesc`), an identity
and a lifecycle state. -/
structure IngesterDesc where
  addr : String
  state : IngesterState
deriving DecidableEq, Repr

/-- Modelled from the spec: a membership snapshot (`ring.Desc`), an ordered
list of members. -/
structure Desc where
  ingesters : List IngesterDesc
deriving DecidableEq, Repr

/-- Modelled from the spec: `Desc.FindIngestersByState` of the ring package,
the ordered list of the members of the snapshot that are in the given state. -/
def Desc.FindIngestersByState (d : Desc) (state : IngesterState) : List IngesterDesc :=
  d.ingesters.filter (fun ing => decide (ing.state = state))

/-- Go error values: the context's cancellation error, or a value built from
a message (`fmt.Errorf`, `errors.New`, any error of the KV client). -/
inductive Error where
  | ctxCanceled
  | errorString (s : String)
deriving DecidableEq, Repr

/-- The method `Error()` of an error value. -/
def Error.Error : Error → String
  | .ctxCanceled => "context canceled"
  | .errorString s => s

/-- The call `fmt.Errorf(format ++ "%v", err)` for a format that ends in its
only verb: the text before the verb followed by `err.Error()`. -/
def Errorf (text : String) (err : Error) : Error :=
  .errorString (text ++ err.Error)

/-- The value half of `KVStore.Get`: an `interface{}` which either holds a
`*ring.Desc` or does not (nil, or some other type). -/
inductive KVValue where
  | desc (d : Desc)
  | other
deriving DecidableEq, Repr

/-- How a call ends: it returns a value, or it panics. -/
inductive Outcome (α : Type) where
  | returned (a : α)
  | panicked
deriving DecidableEq, Repr

/-- The fields of `r.cfg` that the lifecycle code reads. -/
structure Config where
  SearchPendingFor : Int
  FlushCheckPeriod : Int
deriving DecidableEq, Repr

def pendingSearchIterations : Int := 10

/-! ## Handover search -/

/-- The environment of the handover search. -/
structure Environment where
  /-- the reading of the clock when `findTargetRuler` is entered -/
  start : Int
  /-- the result of the k-th `KVStore.Get`, issued at instant `t` -/
  get : Nat → Int → Except Error KVValue
  /-- the time the k-th `KVStore.Get` takes -/
  getCost : Nat → Nat
  /-- the time by which the k-th `time.Sleep` overshoots -/
  sleepLag : Nat → Nat

/-- The state threaded through `findTargetRuler`: the clock and the number of
fetches and sleeps so far. -/
structure World where
  now : Int
  gets : Nat
  sleeps : Nat
deriving DecidableEq, Repr

/-- The call `time.Sleep(d)`: pauses for at least `d`; a negative or zero `d`
returns immediately. -/
def Sleep (env : Environment) (d : Int) (w : World) : World :=
  { w with now := w.now + (if 0 < d then d else 0) + env.sleepLag w.sleeps,
           sleeps := w.sleeps + 1 }

/-- The closure `findRuler` (lines 31-43): one fetch of the ring and the
selection of the first PENDING member. -/
def findRuler (env : Environment) (w : World) :
    Outcome (Except Error IngesterDesc) × World :=
  let w1 : World := { w with now := w.now + env.getCost w.gets, gets := w.gets + 1 }
  match env.get w.gets w.now with
  | .error err => (.returned (.error err), w1)
  | .ok .other => (.panicked, w1)
  | .ok (.desc ringDesc) =>
    let rulers := ringDesc.FindIngestersByState .PENDING
    if h : rulers.length ≤ 0 then
      (.returned (.error (.errorString "no pending rulers")), w1)
    else
      (.returned (.ok (rulers.get ⟨0, Nat.lt_of_not_le h⟩)), w1)

/-- The `for` loop of `findTargetRuler` (lines 46-59). -/
def findTargetRulerLoop (env : Environment) (cfg : Config) (deadline : Int) :
    Nat → World → Option (Outcome (Except Error IngesterDesc) × World)
  | 0, _ => none
  | fuel + 1, w =>
    match findRuler env w with
    | (.panicked, w1) => some (.panicked, w1)
    | (.returned (.error err), w1) =>
      if w1.now < deadline then
        findTargetRulerLoop env cfg deadline fuel
          (Sleep env (cfg.SearchPendingFor.tdiv pendingSearchIterations) w1)
      else
        some (.returned (.error err), w1)
    | (.returned (.ok ingester), w1) => some (.returned (.ok ingester), w1)

/-- The world in which `findTargetRuler` starts. -/
def initWorld (env : Environment) : World :=
  { now := env.start, gets := 0, sleeps := 0 }

/-- The method `Ruler.findTargetRuler` (lines 29-60). -/
def findTargetRuler (env : Environment) (cfg : Config) (fuel : Nat) :
    Option (Outcome (Except Error IngesterDesc) × World) :=
  let deadline := env.start + cfg.SearchPendingFor
  findTargetRulerLoop env cfg deadline fuel (initWorld env)

/-- The method `Ruler.TransferOut` (lines 18-25); `none` inside `returned` is
the nil error. -/
def TransferOut (env : Environment) (cfg : Config) (fuel : Nat) :
    Option (Outcome (Option Error) × World) :=
  match findTargetRuler env cfg fuel with
  | none => none
  | some (.panicked, w) => some (.panicked, w)
  | some (.returned (.error err), w) =>
    some (.returned (some (Errorf "cannot find replacement ruler: " err)), w)
  | some (.returned (.ok _), w) => some (.returned none, w)

/-! ## Bounded flush -/

/-- The scheduler and clock as seen by `Flush`. -/
structure FlushEnv where
  /-- the reading of the clock when `Flush` is entered -/
  start : Int
  /-- the result of the k-th `nextWorkItem`: an item, or nil -/
  nextWorkItem : Nat → Option String
  /-- the time the k-th `nextWorkItem` takes -/
  probeCost : Nat → Nat

/-- The state threaded through `Flush`: the clock and the number of probes. -/
structure FlushWorld where
  now : Int
  probes : Nat
deriving DecidableEq, Repr

/-- The two ways `Flush` returns. -/
inductive FlushExit where
  | timedOut
  | complete
deriving DecidableEq, Repr

/-- Whether a receive from `flushTicker.C` can proceed: the first tick is
delivered one period after the ticker was made. -/
def tickerFired (env : FlushEnv) (cfg : Config) (w : FlushWorld) : Bool :=
  decide (env.start + cfg.FlushCheckPeriod ≤ w.now)

/-- The `for`/`select` loop of `Flush` (lines 76-89): the receive from the
ticker is taken when it can proceed, the `default` branch otherwise. -/
def FlushLoop (env : FlushEnv) (cfg : Config) :
    Nat → FlushWorld → Option (Outcome FlushExit × FlushWorld)
  | 0, _ => none
  | fuel + 1, w =>
    if tickerFired env cfg w then
      some (.returned .timedOut, w)
    else
      let w1 : FlushWorld := { now := w.now + env.probeCost w.probes, probes := w.probes + 1 }
      match env.nextWorkItem w.probes with
      | none => some (.returned .complete, w1)
      | some _ => FlushLoop env cfg fuel w1

/-- The method `Ruler.Flush` (lines 72-90); `time.NewTicker` panics on a
period that is not positive. -/
def Flush (env : FlushEnv) (cfg : Config) (fuel : Nat) :
    Option (Outcome FlushExit × FlushWorld) :=
  if cfg.FlushCheckPeriod ≤ 0 then
    some (.panicked, { now := env.start, probes := 0 })
  else
    FlushLoop env cfg fuel { now := env.start, probes := 0 }

/-! ## Runs of the handover search -/

/-- The world at the start of attempt `k` when every earlier attempt was
retried: the clock has advanced by `k` fetches and `k` sleeps. -/
def worldAt (env : Environment) (cfg : Config) : Nat → World
  | 0 => initWorld env
  | k + 1 =>
    Sleep env (cfg.SearchPendingFor.tdiv pendingSearchIterations)
      (findRuler env (worldAt env cfg k)).2

/-- Attempt `k` fails (fetch error, or no PENDING member) and the clock read
after it is before the deadline. -/
def Retried (env : Environment) (cfg : Config) (k : Nat) : Prop :=
  ∃ err, (findRuler env (worldAt env cfg k)).1 = .returned (.error err) ∧
    (findRuler env (worldAt env cfg k)).2.now < env.start + cfg.SearchPendingFor

/-- A fetch result in which no PENDING member is observed: an error, or a
snapshot without a PENDING member. -/
def noPending : Except Error KVValue → Bool
  | .error _ => true
  | .ok .other => false
  | .ok (.desc d) => (d.FindIngestersByState .PENDING).isEmpty

/-- A fetch result that is a snapshot with at least one PENDING member. -/
def hasPending : Except Error KVValue → Bool
  | .ok (.desc d) => d.ingesters.any (fun ing => decide (ing.state = .PENDING))
  | _ => false

/-- Fetches take no time and sleeps do not overshoot. -/
def Ideal (env : Environment) : Prop :=
  ∀ k, env.getCost k = 0 ∧ env.sleepLag k = 0

/-! ## Runs of the flush -/

/-- The time taken by the first `k` probes. -/
def elapsedProbes (env : FlushEnv) : Nat → Nat
  | 0 => 0
  | k + 1 => elapsedProbes env k + env.probeCost k

/-- The world at the start of iteration `k` of the flush loop when every
earlier iteration went on: `k` probes have been made. -/
def flushWorldAt (env : FlushEnv) (k : Nat) : FlushWorld :=
  { now := env.start + (elapsedProbes env k : Int), probes := k }

/-! ## Concrete environments -/

/-- A KV store that is never reachable, on an idealised clock. -/
def envDown : Environment :=
  { start := 0, get := fun _ _ => .error (.errorString "unavailable"),
    getCost := fun _ => 0, sleepLag := fun _ => 0 }

/-- A KV store whose ring holds a PENDING member from instant `t` on, and is
unreachable before, on an idealised clock. -/
def envJoinAt (t : Int) : Environment :=
  { start := 0,
    get := fun _ now =>
      if now < t then .error (.errorString "unavailable")
      else .ok (.desc { ingesters := [{ addr := "r0", state := .ACTIVE },
                                      { addr := "r1", state := .PENDING },
                                      { addr := "r2", state := .PENDING }] }),
    getCost := fun _ => 0, sleepLag := fun _ => 0 }

/-- A KV store whose ring only ever holds an ACTIVE member, on an idealised
clock. -/
def envActive : Environment :=
  { start := 0,
    get := fun _ _ => .ok (.desc { ingesters := [{ addr := "r0", state := .ACTIVE }] }),
    getCost := fun _ => 0, sleepLag := fun _ => 0 }

/-- A KV store that is unreachable until the context is cancelled at instant
`c`, and fails with the cancellation error from then on, on an idealised
clock. -/
def envCancelAt (c : Int) : Environment :=
  { start := 0,
    get := fun _ now =>
      if now < c then .error (.errorString "unavailable") else .error .ctxCanceled,
    getCost := fun _ => 0, sleepLag := fun _ => 0 }

/-- A scheduler that yields `n` items and then nil; every probe takes `c`. -/
def schedItems (n c : Nat) : FlushEnv :=
  { start := 0, nextWorkItem := fun k => if k < n then some "item" else none,
    probeCost := fun _ => c }

/-- A scheduler that always has an item; every probe takes `c`. -/
def schedBusy (c : Nat) : FlushEnv :=
  { start := 0, nextWorkItem := fun _ => some "item", probeCost := fun _ => c }

end Ruler

namespace Ruler

/-! ## One attempt -/

theorem findRuler_world (env : Environment) (w : World) :
    (findRuler env w).2 =
      { w with now := w.now + env.getCost w.gets, gets := w.gets + 1 } := by
  unfold findRuler
  cases env.get w.gets w.now with
  | error err => rfl
  | ok v =>
    cases v with
    | other => rfl
    | desc d =>
      simp only
      split <;> rfl

theorem findRuler_error (env : Environment) (w : World) (err : Error)
    (h : env.get w.gets w.now = .error err) :
    (findRuler env w).1 = .returned (.error err) := by
  unfold findRuler
  rw [h]

theorem findRuler_empty (env : Environment) (w : World) (d : Desc)
    (h : env.get w.gets w.now = .ok (.desc d))
    (hd : d.FindIngestersByState .PENDING = []) :
    (findRuler env w).1 = .returned (.error (.errorString "no pending rulers")) := by
  unfold findRuler
  rw [h]
  simp [hd]

theorem findRuler_first (env : Environment) (w : World) (d : Desc)
    (m : IngesterDesc) (rest : List IngesterDesc)
    (h : env.get w.gets w.now = .ok (.desc d))
    (hd : d.FindIngestersByState .PENDING = m :: rest) :
    (findRuler env w).1 = .returned (.ok m) := by
  unfold findRuler
  rw [h]
  simp [hd]

theorem findRuler_noPending (env : Environment) (w : World)
    (h : noPending (env.get w.gets w.now) = true) :
    ∃ err, (findRuler env w).1 = .returned (.error err) := by
  cases hg : env.get w.gets w.now with
  | error err => exact ⟨err, findRuler_error env w err hg⟩
  | ok v =>
    cases v with
    | other => rw [hg] at h; simp [noPending] at h
    | desc d =>
      rw [hg] at h
      simp only [noPending, List.isEmpty_iff] at h
      exact ⟨_, findRuler_empty env w d hg h⟩

/-! ## The loop -/

theorem loop_retry (env : Environment) (cfg : Config) (deadline : Int)
    (fuel : Nat) (w : World) (err : Error)
    (h1 : (findRuler env w).1 = .returned (.error err))
    (h2 : (findRuler env w).2.now < deadline) :
    findTargetRulerLoop env cfg deadline (fuel + 1) w =
      findTargetRulerLoop env cfg deadline fuel
        (Sleep env (cfg.SearchPendingFor.tdiv pendingSearchIterations)
          (findRuler env w).2) := by
  rw [findTargetRulerLoop]
  rcases hf : findRuler env w with ⟨r, w1⟩
  rw [hf] at h1 h2
  simp only at h1 h2
  subst h1
  simp [h2]

theorem loop_expired (env : Environment) (cfg : Config) (deadline : Int)
    (fuel : Nat) (w : World) (err : Error)
    (h1 : (findRuler env w).1 = .returned (.error err))
    (h2 : ¬ (findRuler env w).2.now < deadline) :
    findTargetRulerLoop env cfg deadline (fuel + 1) w =
      some (.returned (.error err), (findRuler env w).2) := by
  rw [findTargetRulerLoop]
  rcases hf : findRuler env w with ⟨r, w1⟩
  rw [hf] at h1 h2
  simp only at h1 h2
  subst h1
  simp [h2]

theorem loop_found (env : Environment) (cfg : Config) (deadline : Int)
    (fuel : Nat) (w : World) (m : IngesterDesc)
    (h1 : (findRuler env w).1 = .returned (.ok m)) :
    findTargetRulerLoop env cfg deadline (fuel + 1) w =
      some (.returned (.ok m), (findRuler env w).2) := by
  rw [findTargetRulerLoop]
  rcases hf : findRuler env w with ⟨r, w1⟩
  rw [hf] at h1
  simp only at h1
  subst h1
  rfl

theorem loop_panicked (env : Environment) (cfg : Config) (deadline : Int)
    (fuel : Nat) (w : World)
    (h1 : (findRuler env w).1 = .panicked) :
    findTargetRulerLoop env cfg deadline (fuel + 1) w =
      some (.panicked, (findRuler env w).2) := by
  rw [findTargetRulerLoop]
  rcases hf : findRuler env w with ⟨r, w1⟩
  rw [hf] at h1
  simp only at h1
  subst h1
  rfl

/-- After `n` retried attempts the loop stands at `worldAt (j + n)`. -/
theorem loop_run (env : Environment) (cfg : Config) (fuel : Nat) :
    ∀ (n j : Nat), (∀ k, j ≤ k → k < j + n → Retried env cfg k) →
      findTargetRulerLoop env cfg (env.start + cfg.SearchPendingFor) (fuel + n)
          (worldAt env cfg j) =
        findTargetRulerLoop env cfg (env.start + cfg.SearchPendingFor) fuel
          (worldAt env cfg (j + n)) := by
  intro n
  induction n with
  | zero => intro j _; rfl
  | succ n ih =>
    intro j h
    obtain ⟨err, h1, h2⟩ := h j (Nat.le_refl j) (by omega)
    have step := loop_retry env cfg (env.start + cfg.SearchPendingFor) (fuel + n)
      (worldAt env cfg j) err h1 h2
    have e1 : fuel + (n + 1) = fuel + n + 1 := by omega
    have e2 : j + (n + 1) = (j + 1) + n := by omega
    rw [e1, step, e2]
    exact ih (j + 1) (fun k hk1 hk2 => h k (by omega) (by omega))

end Ruler

namespace Ruler

theorem worldAt_counts (env : Environment) (cfg : Config) :
    ∀ k, (worldAt env cfg k).gets = k ∧ (worldAt env cfg k).sleeps = k := by
  intro k
  induction k with
  | zero => exact ⟨rfl, rfl⟩
  | succ k ih =>
    simp only [worldAt, Sleep, findRuler_world]
    exact ⟨by rw [ih.1], by rw [ih.2]⟩

/-- Every result of the loop is the result of some attempt `n`, reached
through retried attempts only; an error result is one whose deadline test
failed. -/
theorem loop_result (env : Environment) (cfg : Config) :
    ∀ (fuel j : Nat) (r : Outcome (Except Error IngesterDesc)) (w : World),
      findTargetRulerLoop env cfg (env.start + cfg.SearchPendingFor) fuel
          (worldAt env cfg j) = some (r, w) →
      ∃ n, j ≤ n ∧ n < j + fuel ∧ (∀ k, j ≤ k → k < n → Retried env cfg k) ∧
        findRuler env (worldAt env cfg n) = (r, w) ∧
        (∀ err, r = .returned (.error err) →
          ¬ w.now < env.start + cfg.SearchPendingFor) := by
  intro fuel
  induction fuel with
  | zero => intro j r w h; simp [findTargetRulerLoop] at h
  | succ fuel ih =>
    intro j r w h
    rcases hf : findRuler env (worldAt env cfg j) with ⟨r0, w1⟩
    have hf1 : (findRuler env (worldAt env cfg j)).1 = r0 := by rw [hf]
    have hf2 : (findRuler env (worldAt env cfg j)).2 = w1 := by rw [hf]
    cases r0 with
    | panicked =>
      rw [loop_panicked env cfg _ fuel _ hf1, hf2] at h
      simp only [Option.some.injEq, Prod.mk.injEq] at h
      obtain ⟨h1, h2⟩ := h
      subst h1 h2
      exact ⟨j, Nat.le_refl j, by omega, fun k a b => absurd b (by omega), hf,
        fun err he => by cases he⟩
    | returned a =>
      cases a with
      | ok m =>
        rw [loop_found env cfg _ fuel _ m hf1, hf2] at h
        simp only [Option.some.injEq, Prod.mk.injEq] at h
        obtain ⟨h1, h2⟩ := h
        subst h1 h2
        exact ⟨j, Nat.le_refl j, by omega, fun k a b => absurd b (by omega), hf,
          fun err he => by cases he⟩
      | error err =>
        by_cases hlt : w1.now < env.start + cfg.SearchPendingFor
        · rw [loop_retry env cfg _ fuel _ err hf1 (by rw [hf2]; exact hlt)] at h
          obtain ⟨n, hn1, hn2, hn3, hn4, hn5⟩ := ih (j + 1) r w h
          refine ⟨n, by omega, by omega, ?_, hn4, hn5⟩
          intro k hk1 hk2
          by_cases hkj : k = j
          · subst hkj
            exact ⟨err, hf1, by rw [hf2]; exact hlt⟩
          · exact hn3 k (by omega) hk2
        · rw [loop_expired env cfg _ fuel _ err hf1 (by rw [hf2]; exact hlt), hf2] at h
          simp only [Option.some.injEq, Prod.mk.injEq] at h
          obtain ⟨h1, h2⟩ := h
          subst h1 h2
          exact ⟨j, Nat.le_refl j, by omega, fun k a b => absurd b (by omega), hf,
            fun e he => by cases he; exact hlt⟩

/-- The first element of a filtered list splits the list: nothing before it
passes the test. -/
theorem filter_head_split {α : Type} (p : α → Bool) :
    ∀ (l : List α) (m : α) (rest : List α), l.filter p = m :: rest →
      ∃ pre post, l = pre ++ m :: post ∧ p m = true ∧ ∀ x ∈ pre, p x = false := by
  intro l
  induction l with
  | nil => intro m rest h; simp at h
  | cons a l ih =>
    intro m rest h
    by_cases hp : p a = true
    · rw [List.filter_cons_of_pos hp] at h
      simp only [List.cons.injEq] at h
      obtain ⟨h1, _⟩ := h
      subst h1
      exact ⟨[], l, rfl, hp, fun x hx => by cases hx⟩
    · rw [List.filter_cons_of_neg hp] at h
      obtain ⟨pre, post, h1, h2, h3⟩ := ih m rest h
      refine ⟨a :: pre, post, by rw [h1]; rfl, h2, ?_⟩
      intro x hx
      rcases List.mem_cons.mp hx with hxa | hxp
      · subst hxa
        simpa using hp
      · exact h3 x hxp

theorem pending_filter_cons (d : Desc)
    (h : ∃ m ∈ d.ingesters, m.state = .PENDING) :
    ∃ m rest, d.FindIngestersByState .PENDING = m :: rest := by
  obtain ⟨m, hm, hs⟩ := h
  have hmem : m ∈ d.FindIngestersByState .PENDING := by
    unfold Desc.FindIngestersByState
    exact List.mem_filter.mpr ⟨hm, by simpa using hs⟩
  cases hl : d.FindIngestersByState .PENDING with
  | nil => rw [hl] at hmem; cases hmem
  | cons a rest => exact ⟨a, rest, rfl⟩

/-- An attempt whose fetch yields a snapshot with a PENDING member selects
the first PENDING member of that snapshot, in snapshot order. -/
theorem findRuler_pending (env : Environment) (w : World) (d : Desc)
    (hget : env.get w.gets w.now = .ok (.desc d))
    (hpend : ∃ m ∈ d.ingesters, m.state = .PENDING) :
    ∃ m pre post, (findRuler env w).1 = .returned (.ok m) ∧
      d.ingesters = pre ++ m :: post ∧ m.state = .PENDING ∧
      ∀ x ∈ pre, x.state ≠ .PENDING := by
  obtain ⟨m, rest, hl⟩ := pending_filter_cons d hpend
  obtain ⟨pre, post, h1, h2, h3⟩ := filter_head_split _ d.ingesters m rest hl
  refine ⟨m, pre, post, findRuler_first env w d m rest hget hl, h1, by simpa using h2, ?_⟩
  intro x hx
  simpa using h3 x hx

theorem Errorf_ne (err : Error) :
    Errorf "cannot find replacement ruler: " err ≠ err := by
  cases err with
  | ctxCanceled => simp [Errorf]
  | errorString s =>
    intro h
    simp only [Errorf, Error.Error, Error.errorString.injEq] at h
    have hl := congrArg String.length h
    rw [String.length_append] at hl
    have : ("cannot find replacement ruler: " : String).length = 31 := by decide
    omega

end Ruler

namespace Ruler

/-! ## The idealised clock: instantaneous fetches, exact sleeps -/

theorem tdiv_iterations (x : Int) (hx : 0 ≤ x) :
    x.tdiv pendingSearchIterations = x / 10 := by
  unfold pendingSearchIterations
  exact Int.tdiv_eq_ediv hx (by decide)

theorem ideal_worldAt (env : Environment) (cfg : Config) (hI : Ideal env)
    (hw : 0 ≤ cfg.SearchPendingFor) :
    ∀ k : Nat, worldAt env cfg k =
      { now := env.start + (k : Int) * (cfg.SearchPendingFor / 10), gets := k, sleeps := k } := by
  intro k
  induction k with
  | zero => simp [worldAt, initWorld]
  | succ k ih =>
    have hs : 0 ≤ cfg.SearchPendingFor / 10 := by omega
    simp only [worldAt, Sleep, findRuler_world, ih, tdiv_iterations _ hw, (hI k).1, (hI k).2]
    have hif : (if 0 < cfg.SearchPendingFor / 10 then cfg.SearchPendingFor / 10 else 0)
        = cfg.SearchPendingFor / 10 := by
      split <;> omega
    rw [hif]
    simp only [World.mk.injEq, and_true]
    push_cast
    ring

theorem ideal_retried (env : Environment) (cfg : Config) (hI : Ideal env)
    (hw : 0 ≤ cfg.SearchPendingFor) (k : Nat)
    (h1 : noPending (env.get k (env.start + (k : Int) * (cfg.SearchPendingFor / 10))) = true)
    (h2 : (k : Int) * (cfg.SearchPendingFor / 10) < cfg.SearchPendingFor) :
    Retried env cfg k := by
  unfold Retried
  rw [ideal_worldAt env cfg hI hw k]
  obtain ⟨err, he⟩ := findRuler_noPending env
    { now := env.start + (k : Int) * (cfg.SearchPendingFor / 10), gets := k, sleeps := k } h1
  refine ⟨err, he, ?_⟩
  rw [findRuler_world]
  simp only [(hI k).1]
  omega

/-- In the idealised clock: attempts `0 .. n-1` fail before the deadline and
attempt `n` fails at or after it, so the search returns the error of attempt
`n` at instant `start + n * (window / 10)`. -/
theorem ideal_fail_at (env : Environment) (cfg : Config) (hI : Ideal env)
    (hw : 0 ≤ cfg.SearchPendingFor) (n : Nat)
    (hretry : ∀ k : Nat, k < n →
      noPending (env.get k (env.start + (k : Int) * (cfg.SearchPendingFor / 10))) = true ∧
      (k : Int) * (cfg.SearchPendingFor / 10) < cfg.SearchPendingFor)
    (err : Error)
    (herr : (findRuler env (worldAt env cfg n)).1 = .returned (.error err))
    (hexp : cfg.SearchPendingFor ≤ (n : Int) * (cfg.SearchPendingFor / 10))
    (fuel : Nat) :
    findTargetRuler env cfg (fuel + 1 + n) = some (.returned (.error err),
      { now := env.start + (n : Int) * (cfg.SearchPendingFor / 10),
        gets := n + 1, sleeps := n }) := by
  have hrun := loop_run env cfg (fuel + 1) n 0
    (fun k _ hk => ideal_retried env cfg hI hw k (hretry k (by omega)).1 (hretry k (by omega)).2)
  have hw2 : (findRuler env (worldAt env cfg n)).2 =
      { now := env.start + (n : Int) * (cfg.SearchPendingFor / 10),
        gets := n + 1, sleeps := n } := by
    rw [findRuler_world, ideal_worldAt env cfg hI hw n]
    simp [(hI n).1]
  have hend := loop_expired env cfg (env.start + cfg.SearchPendingFor) fuel
    (worldAt env cfg n) err herr (by rw [hw2]; simp only; omega)
  unfold findTargetRuler
  simp only [Nat.zero_add] at hrun
  have h0 : initWorld env = worldAt env cfg 0 := rfl
  rw [h0, hrun, hend, hw2]

/-- In the idealised clock: attempts `0 .. n-1` fail before the deadline and
attempt `n` selects a member, so the search returns it at instant
`start + n * (window / 10)`. -/
theorem ideal_found_at (env : Environment) (cfg : Config) (hI : Ideal env)
    (hw : 0 ≤ cfg.SearchPendingFor) (n : Nat) (m : IngesterDesc)
    (hretry : ∀ k : Nat, k < n →
      noPending (env.get k (env.start + (k : Int) * (cfg.SearchPendingFor / 10))) = true ∧
      (k : Int) * (cfg.SearchPendingFor / 10) < cfg.SearchPendingFor)
    (hok : (findRuler env (worldAt env cfg n)).1 = .returned (.ok m))
    (fuel : Nat) :
    findTargetRuler env cfg (fuel + 1 + n) = some (.returned (.ok m),
      { now := env.start + (n : Int) * (cfg.SearchPendingFor / 10),
        gets := n + 1, sleeps := n }) := by
  have hrun := loop_run env cfg (fuel + 1) n 0
    (fun k _ hk => ideal_retried env cfg hI hw k (hretry k (by omega)).1 (hretry k (by omega)).2)
  have hw2 : (findRuler env (worldAt env cfg n)).2 =
      { now := env.start + (n : Int) * (cfg.SearchPendingFor / 10),
        gets := n + 1, sleeps := n } := by
    rw [findRuler_world, ideal_worldAt env cfg hI hw n]
    simp [(hI n).1]
  have hend := loop_found env cfg (env.start + cfg.SearchPendingFor) fuel
    (worldAt env cfg n) m hok
  unfold findTargetRuler
  simp only [Nat.zero_add] at hrun
  have h0 : initWorld env = worldAt env cfg 0 := rfl
  rw [h0, hrun, hend, hw2]

/-- The first poll boundary at or after an instant `t`, for a positive poll
interval `s`. -/
theorem exists_poll (s t : Int) (hs : 0 < s ∨ t ≤ 0) :
    ∃ n : Nat, t ≤ (n : Int) * s ∧ (∀ k : Nat, k < n → (k : Int) * s < t) ∧
      (0 < n → (n : Int) * s < t + s) := by
  have hex : ∃ n : Nat, t ≤ (n : Int) * s := by
    rcases hs with hs | ht
    · refine ⟨t.toNat, ?_⟩
      have h1 : t ≤ (t.toNat : Int) := Int.self_le_toNat t
      have h2 : (0 : Int) ≤ (t.toNat : Int) := Int.ofNat_nonneg _
      nlinarith
    · exact ⟨0, by simpa using ht⟩
  classical
  refine ⟨Nat.find hex, Nat.find_spec hex, ?_, ?_⟩
  · intro k hk
    have := Nat.find_min hex hk
    omega
  · intro hpos
    have hlt : Nat.find hex - 1 < Nat.find hex := by omega
    have := Nat.find_min hex hlt
    have hc : ((Nat.find hex - 1 : Nat) : Int) = (Nat.find hex : Int) - 1 := by omega
    rw [hc] at this
    have e : ((Nat.find hex : Int) - 1) * s = (Nat.find hex : Int) * s - s := by ring
    rw [e] at this
    omega

theorem hasPending_desc (r : Except Error KVValue) (h : hasPending r = true) :
    ∃ d, r = .ok (.desc d) ∧ ∃ m ∈ d.ingesters, m.state = .PENDING := by
  cases r with
  | error e => simp [hasPending] at h
  | ok v =>
    cases v with
    | other => simp [hasPending] at h
    | desc d =>
      simp only [hasPending, List.any_eq_true, decide_eq_true_eq] at h
      exact ⟨d, rfl, h⟩

end Ruler

namespace Ruler

/-! ## The flush loop -/

theorem FlushLoop_timeout (env : FlushEnv) (cfg : Config) (fuel : Nat) (w : FlushWorld)
    (h : tickerFired env cfg w = true) :
    FlushLoop env cfg (fuel + 1) w = some (.returned .timedOut, w) := by
  rw [FlushLoop]
  simp [h]

theorem FlushLoop_complete (env : FlushEnv) (cfg : Config) (fuel k : Nat)
    (h : tickerFired env cfg (flushWorldAt env k) = false)
    (hn : env.nextWorkItem k = none) :
    FlushLoop env cfg (fuel + 1) (flushWorldAt env k) =
      some (.returned .complete, flushWorldAt env (k + 1)) := by
  rw [FlushLoop, h]
  simp only [flushWorldAt, hn, elapsedProbes, Bool.false_eq_true, if_false, Nat.cast_add,
    Int.add_assoc]

theorem FlushLoop_continue (env : FlushEnv) (cfg : Config) (fuel k : Nat)
    (h : tickerFired env cfg (flushWorldAt env k) = false)
    (hn : (env.nextWorkItem k).isSome = true) :
    FlushLoop env cfg (fuel + 1) (flushWorldAt env k) =
      FlushLoop env cfg fuel (flushWorldAt env (k + 1)) := by
  rw [FlushLoop]
  obtain ⟨item, hi⟩ := Option.isSome_iff_exists.mp hn
  rw [h]
  simp only [flushWorldAt, hi, elapsedProbes, Bool.false_eq_true, if_false, Nat.cast_add,
    Int.add_assoc]

/-- After `n` iterations that each found the ticker silent and an item
available, the loop stands at `flushWorldAt (j + n)`. -/
theorem FlushLoop_run (env : FlushEnv) (cfg : Config) (fuel : Nat) :
    ∀ (n j : Nat),
      (∀ k, j ≤ k → k < j + n →
        tickerFired env cfg (flushWorldAt env k) = false ∧
        (env.nextWorkItem k).isSome = true) →
      FlushLoop env cfg (fuel + n) (flushWorldAt env j) =
        FlushLoop env cfg fuel (flushWorldAt env (j + n)) := by
  intro n
  induction n with
  | zero => intro j _; rfl
  | succ n ih =>
    intro j h
    obtain ⟨h1, h2⟩ := h j (Nat.le_refl j) (by omega)
    have step := FlushLoop_continue env cfg (fuel + n) j h1 h2
    have e1 : fuel + (n + 1) = fuel + n + 1 := by omega
    have e2 : j + (n + 1) = (j + 1) + n := by omega
    rw [e1, step, e2]
    exact ih (j + 1) (fun k hk1 hk2 => h k (by omega) (by omega))

theorem Flush_eq_loop (env : FlushEnv) (cfg : Config) (fuel : Nat)
    (hp : 0 < cfg.FlushCheckPeriod) :
    Flush env cfg fuel = FlushLoop env cfg fuel (flushWorldAt env 0) := by
  unfold Flush
  have : ¬ cfg.FlushCheckPeriod ≤ 0 := by omega
  simp [this, flushWorldAt, elapsedProbes]

theorem elapsedProbes_ge (env : FlushEnv) (h : ∀ k, 0 < env.probeCost k) :
    ∀ k, k ≤ elapsedProbes env k := by
  intro k
  induction k with
  | zero => exact Nat.le_refl 0
  | succ k ih =>
    have := h k
    simp only [elapsedProbes]
    omega

end Ruler

namespace Ruler

/-! ## Complete runs of the search -/

theorem run_found (env : Environment) (cfg : Config) (n fuel : Nat) (m : IngesterDesc)
    (hreach : ∀ k, k < n → Retried env cfg k)
    (hok : (findRuler env (worldAt env cfg n)).1 = .returned (.ok m)) :
    findTargetRuler env cfg (fuel + 1 + n) =
      some (.returned (.ok m), (findRuler env (worldAt env cfg n)).2) := by
  have hrun := loop_run env cfg (fuel + 1) n 0 (fun k _ hk => hreach k (by omega))
  simp only [Nat.zero_add] at hrun
  have h0 : initWorld env = worldAt env cfg 0 := rfl
  unfold findTargetRuler
  rw [h0, hrun]
  exact loop_found env cfg _ fuel _ m hok

theorem run_expired (env : Environment) (cfg : Config) (n fuel : Nat) (err : Error)
    (hreach : ∀ k, k < n → Retried env cfg k)
    (herr : (findRuler env (worldAt env cfg n)).1 = .returned (.error err))
    (hlate : ¬ (findRuler env (worldAt env cfg n)).2.now < env.start + cfg.SearchPendingFor) :
    findTargetRuler env cfg (fuel + 1 + n) =
      some (.returned (.error err), (findRuler env (worldAt env cfg n)).2) := by
  have hrun := loop_run env cfg (fuel + 1) n 0 (fun k _ hk => hreach k (by omega))
  simp only [Nat.zero_add] at hrun
  have h0 : initWorld env = worldAt env cfg 0 := rfl
  unfold findTargetRuler
  rw [h0, hrun]
  exact loop_expired env cfg _ fuel _ err herr hlate

theorem findRuler_counts (env : Environment) (cfg : Config) (n : Nat) :
    (findRuler env (worldAt env cfg n)).2.gets = n + 1 ∧
      (findRuler env (worldAt env cfg n)).2.sleeps = n := by
  rw [findRuler_world]
  simp [worldAt_counts env cfg n]

/-! ## The claims -/

/-- C1: at every attempt `n` of `findTargetRuler` (reached because the attempts
before it were retried) whose fetch succeeds with a snapshot that has a
PENDING member, the call returns success at that attempt (after `n + 1`
fetches and `n` sleeps), and the member returned is the first member of that
snapshot, in snapshot order, whose state is PENDING. -/
theorem findTargetRuler_returns_first_pending (env : Environment) (cfg : Config)
    (n fuel : Nat) (d : Desc)
    (hreach : ∀ k, k < n → Retried env cfg k)
    (hget : env.get n (worldAt env cfg n).now = .ok (.desc d))
    (hpend : ∃ m ∈ d.ingesters, m.state = .PENDING) :
    ∃ m pre post w,
      findTargetRuler env cfg (fuel + 1 + n) = some (.returned (.ok m), w) ∧
      w.gets = n + 1 ∧ w.sleeps = n ∧
      d.ingesters = pre ++ m :: post ∧ m.state = .PENDING ∧
      ∀ x ∈ pre, x.state ≠ .PENDING := by
  have hget2 : env.get (worldAt env cfg n).gets (worldAt env cfg n).now = .ok (.desc d) := by
    rw [(worldAt_counts env cfg n).1]; exact hget
  obtain ⟨m, pre, post, hm, hsplit, hstate, hpre⟩ :=
    findRuler_pending env (worldAt env cfg n) d hget2 hpend
  exact ⟨m, pre, post, _, run_found env cfg n fuel m hreach hm,
    (findRuler_counts env cfg n).1, (findRuler_counts env cfg n).2, hsplit, hstate, hpre⟩

/-- C2: `TransferOut` returns an error `e` exactly when some attempt `n`,
reached through attempts that failed before the deadline and were retried,
fails with the clock not before `deadline = start + SearchPendingFor`; the
error returned is then the wrapper "cannot find replacement ruler: ..." built
from the error of attempt `n` alone, it is never that error itself, and the
errors of the retried attempts do not appear in it. -/
theorem TransferOut_error_iff (env : Environment) (cfg : Config) (fuel : Nat)
    (e : Error) (w : World) :
    TransferOut env cfg fuel = some (.returned (some e), w) ↔
      ∃ n err, n < fuel ∧ (∀ k, k < n → Retried env cfg k) ∧
        findRuler env (worldAt env cfg n) = (.returned (.error err), w) ∧
        ¬ w.now < env.start + cfg.SearchPendingFor ∧
        e = Errorf "cannot find replacement ruler: " err ∧ e ≠ err := by
  constructor
  · intro h
    unfold TransferOut at h
    rcases hf : findTargetRuler env cfg fuel with _ | ⟨r, w1⟩
    · rw [hf] at h; simp at h
    · rw [hf] at h
      cases r with
      | panicked => simp at h
      | returned a =>
        cases a with
        | ok m => simp at h
        | error err =>
          simp only [Option.some.injEq, Prod.mk.injEq, Outcome.returned.injEq] at h
          obtain ⟨h1, h2⟩ := h
          subst h2
          have hl : findTargetRulerLoop env cfg (env.start + cfg.SearchPendingFor) fuel
              (worldAt env cfg 0) = some (.returned (.error err), w1) := hf
          obtain ⟨n, _, hn2, hn3, hn4, hn5⟩ := loop_result env cfg fuel 0 _ _ hl
          refine ⟨n, err, by omega, fun k hk => hn3 k (Nat.zero_le k) hk, hn4,
            hn5 err rfl, h1.symm, ?_⟩
          rw [← h1]
          exact Errorf_ne err
  · rintro ⟨n, err, hn, hreach, hf, hlate, he, _⟩
    have hf1 : (findRuler env (worldAt env cfg n)).1 = .returned (.error err) := by rw [hf]
    have hf2 : (findRuler env (worldAt env cfg n)).2 = w := by rw [hf]
    have hrun := run_expired env cfg n (fuel - 1 - n) err hreach hf1 (by rw [hf2]; exact hlate)
    have hfuel : fuel - 1 - n + 1 + n = fuel := by omega
    rw [hfuel, hf2] at hrun
    unfold TransferOut
    rw [hrun, he]

/-- C9 (as amended): at every attempt `n` of the search (reached because the
attempts before it were retried) whose fetch succeeds with a snapshot that has
a member in state PENDING, `TransferOut` returns at that attempt, after
`n + 1` fetches, with a nil error. -/
theorem TransferOut_returns_nil_on_pending (env : Environment) (cfg : Config)
    (n fuel : Nat) (d : Desc)
    (hreach : ∀ k, k < n → Retried env cfg k)
    (hget : env.get n (worldAt env cfg n).now = .ok (.desc d))
    (hpend : ∃ m ∈ d.ingesters, m.state = .PENDING) :
    ∃ w, TransferOut env cfg (fuel + 1 + n) = some (.returned none, w) ∧
      w.gets = n + 1 := by
  have hget2 : env.get (worldAt env cfg n).gets (worldAt env cfg n).now = .ok (.desc d) := by
    rw [(worldAt_counts env cfg n).1]; exact hget
  obtain ⟨m, _, _, hm, _, _, _⟩ := findRuler_pending env (worldAt env cfg n) d hget2 hpend
  refine ⟨_, ?_, (findRuler_counts env cfg n).1⟩
  unfold TransferOut
  rw [run_found env cfg n fuel m hreach hm]

/-- C9 (counterexample): every fetch succeeds with a snapshot that holds an
ACTIVE member and no PENDING one, the window is 10; `TransferOut` does not
return at the first attempt but retries until the deadline and returns an
error after 11 fetches. -/
theorem TransferOut_active_counterexample :
    envActive.get 0 0 = .ok (.desc { ingesters := [{ addr := "r0", state := .ACTIVE }] }) ∧
    TransferOut envActive { SearchPendingFor := 10, FlushCheckPeriod := 1 } 1 = none ∧
    TransferOut envActive { SearchPendingFor := 10, FlushCheckPeriod := 1 } 11 =
      some (.returned (some (.errorString "cannot find replacement ruler: no pending rulers")),
        { now := 10, gets := 11, sleeps := 10 }) := by
  refine ⟨rfl, ?_, ?_⟩ <;> decide

end Ruler

namespace Ruler

/-- On the idealised clock a window shorter than `pendingSearchIterations`
clock units gives a sleep of length zero: while the fetch issued at the start
instant keeps failing, the clock stands still and the loop never returns. -/
theorem short_window_never_returns (env : Environment) (cfg : Config) (hI : Ideal env)
    (h0 : 0 < cfg.SearchPendingFor) (h10 : cfg.SearchPendingFor < 10)
    (hnp : ∀ k, noPending (env.get k env.start) = true) :
    ∀ fuel, findTargetRuler env cfg fuel = none := by
  intro fuel
  have hs : cfg.SearchPendingFor / 10 = 0 := by omega
  have hrun := loop_run env cfg 0 fuel 0 (fun k _ _ =>
    ideal_retried env cfg hI (by omega) k (by rw [hs]; simpa using hnp k) (by rw [hs]; omega))
  simp only [Nat.zero_add] at hrun
  unfold findTargetRuler
  have h0 : initWorld env = worldAt env cfg 0 := rfl
  rw [h0, hrun]
  rfl

/-- C1 (witness): window 100, a PENDING member joins at instant 35; attempts
0 to 3 are retried and attempt 4 returns the first PENDING member `r1`. -/
theorem findTargetRuler_returns_first_pending_witness :
    ∃ m pre post w,
      findTargetRuler (envJoinAt 35) { SearchPendingFor := 100, FlushCheckPeriod := 1 }
        (0 + 1 + 4) = some (.returned (.ok m), w) ∧
      w.gets = 4 + 1 ∧ w.sleeps = 4 ∧
      [({ addr := "r0", state := .ACTIVE } : IngesterDesc),
        { addr := "r1", state := .PENDING }, { addr := "r2", state := .PENDING }]
        = pre ++ m :: post ∧ m.state = .PENDING ∧
      ∀ x ∈ pre, x.state ≠ .PENDING :=
  findTargetRuler_returns_first_pending (envJoinAt 35)
    { SearchPendingFor := 100, FlushCheckPeriod := 1 } 4 0
    { ingesters := [{ addr := "r0", state := .ACTIVE },
                    { addr := "r1", state := .PENDING }, { addr := "r2", state := .PENDING }] }
    (by
      intro k hk
      interval_cases k <;>
        exact ideal_retried _ _ (fun _ => ⟨rfl, rfl⟩) (by decide) _ (by decide) (by decide))
    (by rfl)
    ⟨{ addr := "r1", state := .PENDING }, by simp, rfl⟩

/-- C9 (witness): window 100, a PENDING member joins at instant 35;
`TransferOut` returns nil at attempt 4. -/
theorem TransferOut_returns_nil_on_pending_witness :
    ∃ w, TransferOut (envJoinAt 35) { SearchPendingFor := 100, FlushCheckPeriod := 1 }
        (0 + 1 + 4) = some (.returned none, w) ∧ w.gets = 4 + 1 :=
  TransferOut_returns_nil_on_pending (envJoinAt 35)
    { SearchPendingFor := 100, FlushCheckPeriod := 1 } 4 0
    { ingesters := [{ addr := "r0", state := .ACTIVE },
                    { addr := "r1", state := .PENDING }, { addr := "r2", state := .PENDING }] }
    (by
      intro k hk
      interval_cases k <;>
        exact ideal_retried _ _ (fun _ => ⟨rfl, rfl⟩) (by decide) _ (by decide) (by decide))
    (by rfl)
    ⟨{ addr := "r1", state := .PENDING }, by simp, rfl⟩

/-- C3 (as amended): on the idealised clock, for every window of at least 10
clock units, if no attempt ever observes a PENDING member then
`findTargetRuler` terminates and returns an error at an elapsed time `T` with
`window ≤ T < window + window / 10`. -/
theorem findTargetRuler_expires_within_interval (env : Environment) (cfg : Config)
    (hI : Ideal env) (hw : 10 ≤ cfg.SearchPendingFor)
    (hnp : ∀ k t, noPending (env.get k t) = true) :
    ∃ N, ∀ fuel, N ≤ fuel → ∃ err w,
      findTargetRuler env cfg fuel = some (.returned (.error err), w) ∧
      cfg.SearchPendingFor ≤ w.now - env.start ∧
      w.now - env.start < cfg.SearchPendingFor + cfg.SearchPendingFor / 10 := by
  have hs : 0 < cfg.SearchPendingFor / 10 := by omega
  obtain ⟨n, hn1, hn2, hn3⟩ := exists_poll (cfg.SearchPendingFor / 10) cfg.SearchPendingFor
    (Or.inl hs)
  have hnpos : 0 < n := by
    rcases Nat.eq_zero_or_pos n with h | h
    · subst h; simp at hn1; omega
    · exact h
  obtain ⟨err, herr⟩ := findRuler_noPending env (worldAt env cfg n) (hnp _ _)
  refine ⟨n + 1, fun fuel hfuel => ⟨err,
    { now := env.start + (n : Int) * (cfg.SearchPendingFor / 10), gets := n + 1, sleeps := n },
    ?_, ?_, ?_⟩⟩
  · have := ideal_fail_at env cfg hI (by omega) n (fun k hk => ⟨hnp _ _, hn2 k hk⟩) err herr hn1
      (fuel - 1 - n)
    have hf : fuel - 1 - n + 1 + n = fuel := by omega
    rw [hf] at this
    exact this
  · simp only; omega
  · have := hn3 hnpos
    simp only; omega

/-- C3 (counterexample): window 5 on the idealised clock, the store never
reachable; the sleep is `5 / 10 = 0`, the clock never reaches the deadline and
`findTargetRuler` returns for no amount of fuel. -/
theorem findTargetRuler_short_window_counterexample :
    Ideal envDown ∧ (0 : Int) < 5 ∧ (∀ k t, noPending (envDown.get k t) = true) ∧
    ∀ fuel, findTargetRuler envDown { SearchPendingFor := 5, FlushCheckPeriod := 1 } fuel = none :=
  ⟨fun _ => ⟨rfl, rfl⟩, by decide, fun _ _ => rfl,
    short_window_never_returns envDown { SearchPendingFor := 5, FlushCheckPeriod := 1 }
      (fun _ => ⟨rfl, rfl⟩) (by decide) (by decide) (fun _ => rfl)⟩

/-- C3 (witness): window 50, the store never reachable; the search returns an
error at an elapsed time in `[50, 55)`. -/
theorem findTargetRuler_expires_within_interval_witness :
    ∃ N, ∀ fuel, N ≤ fuel → ∃ err w,
      findTargetRuler envDown { SearchPendingFor := 50, FlushCheckPeriod := 1 } fuel =
        some (.returned (.error err), w) ∧
      (50 : Int) ≤ w.now - envDown.start ∧ w.now - envDown.start < 50 + 50 / 10 :=
  findTargetRuler_expires_within_interval envDown
    { SearchPendingFor := 50, FlushCheckPeriod := 1 }
    (fun _ => ⟨rfl, rfl⟩) (by decide) (fun _ _ => rfl)

end Ruler

namespace Ruler

/-- C4 (as amended): on the idealised clock, for every window `> 0` and every
instant `t` with `0 ≤ t < window`, where the window is at least 10 clock units
or `t = 0`: if every fetch made before `t` fails or finds no PENDING member
and every fetch made at or after `t` succeeds with a PENDING member, then
`findTargetRuler` returns success with a PENDING member at an elapsed time `T`
with `t ≤ T ≤ t + window / 10`. -/
theorem findTargetRuler_finds_within_interval (env : Environment) (cfg : Config) (t : Int)
    (hI : Ideal env) (hw : 0 < cfg.SearchPendingFor)
    (ht0 : 0 ≤ t) (ht : t < cfg.SearchPendingFor)
    (hs : 10 ≤ cfg.SearchPendingFor ∨ t = 0)
    (hbefore : ∀ k τ, τ < env.start + t → noPending (env.get k τ) = true)
    (hafter : ∀ k τ, env.start + t ≤ τ → hasPending (env.get k τ) = true) :
    ∃ N, ∀ fuel, N ≤ fuel → ∃ m w,
      findTargetRuler env cfg fuel = some (.returned (.ok m), w) ∧
      m.state = .PENDING ∧
      t ≤ w.now - env.start ∧ w.now - env.start ≤ t + cfg.SearchPendingFor / 10 := by
  have hs2 : 0 < cfg.SearchPendingFor / 10 ∨ t ≤ 0 := by
    rcases hs with h | h
    · exact Or.inl (by omega)
    · exact Or.inr (by omega)
  obtain ⟨n, hn1, hn2, hn3⟩ := exists_poll (cfg.SearchPendingFor / 10) t hs2
  have hwn := ideal_worldAt env cfg hI (by omega) n
  obtain ⟨d, hd, hpend⟩ := hasPending_desc _
    (hafter n (env.start + (n : Int) * (cfg.SearchPendingFor / 10)) (by omega))
  obtain ⟨m, _, _, hm, _, hstate, _⟩ := findRuler_pending env (worldAt env cfg n) d
    (by rw [hwn]; exact hd) hpend
  refine ⟨n + 1, fun fuel hfuel => ⟨m,
    { now := env.start + (n : Int) * (cfg.SearchPendingFor / 10), gets := n + 1, sleeps := n },
    ?_, hstate, ?_, ?_⟩⟩
  · have := ideal_found_at env cfg hI (by omega) n m
      (fun k hk => ⟨hbefore _ _ (by have := hn2 k hk; omega), by have := hn2 k hk; omega⟩)
      hm (fuel - 1 - n)
    have hf : fuel - 1 - n + 1 + n = fuel := by omega
    rw [hf] at this
    exact this
  · simp only; omega
  · simp only
    rcases Nat.eq_zero_or_pos n with h | h
    · subst h
      simp only [Nat.cast_zero, zero_mul]
      omega
    · have := hn3 h
      omega

/-- C4 (counterexample): window 5 on the idealised clock, a PENDING member
present from instant 3 on; the sleep is `5 / 10 = 0`, every fetch is issued at
instant 0 and fails, and `findTargetRuler` returns for no amount of fuel. -/
theorem findTargetRuler_join_short_window_counterexample :
    Ideal (envJoinAt 3) ∧ (0 : Int) ≤ 3 ∧ (3 : Int) < 5 ∧
    (∀ k τ, τ < (envJoinAt 3).start + 3 → noPending ((envJoinAt 3).get k τ) = true) ∧
    (∀ k τ, (envJoinAt 3).start + 3 ≤ τ → hasPending ((envJoinAt 3).get k τ) = true) ∧
    ∀ fuel,
      findTargetRuler (envJoinAt 3) { SearchPendingFor := 5, FlushCheckPeriod := 1 } fuel
        = none := by
  refine ⟨fun _ => ⟨rfl, rfl⟩, by decide, by decide, ?_, ?_,
    short_window_never_returns (envJoinAt 3) { SearchPendingFor := 5, FlushCheckPeriod := 1 }
      (fun _ => ⟨rfl, rfl⟩) (by decide) (by decide) (fun _ => rfl)⟩
  · intro k τ h
    have h3 : τ < 3 := by simpa [envJoinAt] using h
    simp [envJoinAt, h3, noPending]
  · intro k τ h
    have h3 : ¬ τ < 3 := by
      have : (0 : Int) + 3 ≤ τ := h
      omega
    simp [envJoinAt, h3, hasPending]

/-- C4 (witness): window 100, a PENDING member present from instant 35 on; the
search succeeds at an elapsed time in `[35, 45]`. -/
theorem findTargetRuler_finds_within_interval_witness :
    ∃ N, ∀ fuel, N ≤ fuel → ∃ m w,
      findTargetRuler (envJoinAt 35) { SearchPendingFor := 100, FlushCheckPeriod := 1 } fuel =
        some (.returned (.ok m), w) ∧
      m.state = .PENDING ∧
      (35 : Int) ≤ w.now - (envJoinAt 35).start ∧
      w.now - (envJoinAt 35).start ≤ 35 + 100 / 10 :=
  findTargetRuler_finds_within_interval (envJoinAt 35)
    { SearchPendingFor := 100, FlushCheckPeriod := 1 } 35
    (fun _ => ⟨rfl, rfl⟩) (by decide) (by decide) (by decide) (Or.inl (by decide))
    (by
      intro k τ h
      have h3 : τ < 35 := by simpa [envJoinAt] using h
      simp [envJoinAt, h3, noPending])
    (by
      intro k τ h
      have h3 : ¬ τ < 35 := by
        have : (0 : Int) + 35 ≤ τ := h
        omega
      simp [envJoinAt, h3, hasPending])

/-- C10: on the idealised clock, for every window that is a positive multiple
of 10 clock units, if every attempt fails then `findTargetRuler` returns the
error after exactly 11 fetches and exactly 10 sleeps, at elapsed time equal to
the window. -/
theorem findTargetRuler_eleven_attempts (env : Environment) (cfg : Config) (m : Int)
    (hI : Ideal env) (hm : 0 < m) (hw : cfg.SearchPendingFor = 10 * m)
    (hnp : ∀ k t, noPending (env.get k t) = true) :
    ∃ N, ∀ fuel, N ≤ fuel → ∃ err w,
      findTargetRuler env cfg fuel = some (.returned (.error err), w) ∧
      w.gets = 11 ∧ w.sleeps = 10 ∧ w.now - env.start = cfg.SearchPendingFor := by
  have hs : cfg.SearchPendingFor / 10 = m := by omega
  obtain ⟨err, herr⟩ := findRuler_noPending env (worldAt env cfg 10) (hnp _ _)
  refine ⟨11, fun fuel hfuel => ⟨err,
    { now := env.start + ((10 : Nat) : Int) * (cfg.SearchPendingFor / 10),
      gets := 10 + 1, sleeps := 10 }, ?_, rfl, rfl, ?_⟩⟩
  · have := ideal_fail_at env cfg hI (by omega) 10
      (fun k hk => ⟨hnp _ _, by
        rw [hs, hw]
        have hk2 : (k : Int) < 10 := by omega
        nlinarith⟩)
      err herr (by rw [hs, hw]; push_cast; omega) (fuel - 1 - 10)
    have hf : fuel - 1 - 10 + 1 + 10 = fuel := by omega
    rw [hf] at this
    exact this
  · simp only [hs, hw]
    push_cast
    omega

/-- C10 (witness): window 50, the store never reachable; 11 fetches and 10
sleeps. -/
theorem findTargetRuler_eleven_attempts_witness :
    ∃ N, ∀ fuel, N ≤ fuel → ∃ err w,
      findTargetRuler envDown { SearchPendingFor := 50, FlushCheckPeriod := 1 } fuel =
        some (.returned (.error err), w) ∧
      w.gets = 11 ∧ w.sleeps = 10 ∧ w.now - envDown.start = 50 :=
  findTargetRuler_eleven_attempts envDown { SearchPendingFor := 50, FlushCheckPeriod := 1 } 5
    (fun _ => ⟨rfl, rfl⟩) (by decide) (by decide) (fun _ _ => rfl)

/-- C8 (as amended): on the idealised clock, for every window of at least 10
clock units and every run in which the context is cancelled at an instant `c`
before the deadline (every fetch before `c` fails or finds no PENDING member,
every fetch from `c` on fails with the cancellation error), `findTargetRuler`
keeps sleeping and retrying and returns the cancellation error only at the
first attempt made at or after the deadline, at an elapsed time `T` with
`window ≤ T < window + window / 10`. -/
theorem findTargetRuler_cancel_waits_for_deadline (env : Environment) (cfg : Config)
    (c : Int) (hI : Ideal env) (hw : 10 ≤ cfg.SearchPendingFor)
    (hc : c < cfg.SearchPendingFor)
    (hbefore : ∀ k τ, τ < env.start + c → noPending (env.get k τ) = true)
    (hafter : ∀ k τ, env.start + c ≤ τ → env.get k τ = .error .ctxCanceled) :
    ∃ N, ∀ fuel, N ≤ fuel → ∃ w,
      findTargetRuler env cfg fuel = some (.returned (.error .ctxCanceled), w) ∧
      cfg.SearchPendingFor ≤ w.now - env.start ∧
      w.now - env.start < cfg.SearchPendingFor + cfg.SearchPendingFor / 10 := by
  have hs : 0 < cfg.SearchPendingFor / 10 := by omega
  have hnp : ∀ k τ, noPending (env.get k τ) = true := by
    intro k τ
    by_cases h : τ < env.start + c
    · exact hbefore k τ h
    · rw [hafter k τ (by omega)]; rfl
  obtain ⟨n, hn1, hn2, hn3⟩ := exists_poll (cfg.SearchPendingFor / 10) cfg.SearchPendingFor
    (Or.inl hs)
  have hnpos : 0 < n := by
    rcases Nat.eq_zero_or_pos n with h | h
    · subst h; simp at hn1; omega
    · exact h
  have hwn := ideal_worldAt env cfg hI (by omega) n
  have herr : (findRuler env (worldAt env cfg n)).1 = .returned (.error .ctxCanceled) :=
    findRuler_error env _ _ (by
      rw [hwn]
      exact hafter n (env.start + (n : Int) * (cfg.SearchPendingFor / 10)) (by omega))
  refine ⟨n + 1, fun fuel hfuel => ⟨
    { now := env.start + (n : Int) * (cfg.SearchPendingFor / 10), gets := n + 1, sleeps := n },
    ?_, ?_, ?_⟩⟩
  · have := ideal_fail_at env cfg hI (by omega) n (fun k hk => ⟨hnp _ _, hn2 k hk⟩)
      .ctxCanceled herr hn1 (fuel - 1 - n)
    have hf : fuel - 1 - n + 1 + n = fuel := by omega
    rw [hf] at this
    exact this
  · simp only; omega
  · have := hn3 hnpos
    simp only; omega

/-- C8 (counterexample): window 100 on the idealised clock, the context
cancelled at instant 5; the attempt at the next poll boundary (instant 10)
gets the cancellation error and is retried, and the call returns only at
instant 100, after 11 fetches and 10 sleeps. -/
theorem findTargetRuler_cancel_counterexample :
    (envCancelAt 5).get 1 10 = .error .ctxCanceled ∧
    findTargetRuler (envCancelAt 5) { SearchPendingFor := 100, FlushCheckPeriod := 1 } 2 = none ∧
    findTargetRuler (envCancelAt 5) { SearchPendingFor := 100, FlushCheckPeriod := 1 } 11 =
      some (.returned (.error .ctxCanceled), { now := 100, gets := 11, sleeps := 10 }) :=
  ⟨rfl, rfl, rfl⟩

/-- C8 (witness): window 100, the context cancelled at instant 5; the call
returns the cancellation error at an elapsed time in `[100, 110)`. -/
theorem findTargetRuler_cancel_waits_for_deadline_witness :
    ∃ N, ∀ fuel, N ≤ fuel → ∃ w,
      findTargetRuler (envCancelAt 5) { SearchPendingFor := 100, FlushCheckPeriod := 1 } fuel =
        some (.returned (.error .ctxCanceled), w) ∧
      (100 : Int) ≤ w.now - (envCancelAt 5).start ∧
      w.now - (envCancelAt 5).start < 100 + 100 / 10 :=
  findTargetRuler_cancel_waits_for_deadline (envCancelAt 5)
    { SearchPendingFor := 100, FlushCheckPeriod := 1 } 5
    (fun _ => ⟨rfl, rfl⟩) (by decide) (by decide)
    (by
      intro k τ h
      have h3 : τ < 5 := by simpa [envCancelAt] using h
      simp [envCancelAt, h3, noPending])
    (by
      intro k τ h
      have h3 : ¬ τ < 5 := by
        have : (0 : Int) + 5 ≤ τ := h
        omega
      simp [envCancelAt, h3])

end Ruler

namespace Ruler

/-- C5: in every iteration `n` of `Flush` (reached because every earlier
iteration found the ticker silent and an item available), if the flush timer
has fired when the iteration starts then `Flush` returns through the timeout
path without calling `nextWorkItem` in that iteration (the probe count stays
`n`), whatever the work source would have answered. -/
theorem Flush_timer_checked_first (env : FlushEnv) (cfg : Config) (n fuel : Nat)
    (hp : 0 < cfg.FlushCheckPeriod)
    (hreach : ∀ k, k < n →
      tickerFired env cfg (flushWorldAt env k) = false ∧ (env.nextWorkItem k).isSome = true)
    (hfired : tickerFired env cfg (flushWorldAt env n) = true) :
    ∃ w, Flush env cfg (fuel + 1 + n) = some (.returned .timedOut, w) ∧
      w = flushWorldAt env n ∧ w.probes = n := by
  refine ⟨flushWorldAt env n, ?_, rfl, rfl⟩
  have hrun := FlushLoop_run env cfg (fuel + 1) n 0 (fun k _ hk => hreach k (by omega))
  simp only [Nat.zero_add] at hrun
  rw [Flush_eq_loop env cfg _ hp, hrun]
  exact FlushLoop_timeout env cfg fuel _ hfired

/-- C5 (witness): period 25, every probe takes 10 and finds an item; the
timer has fired at the start of iteration 3 (instant 30) and `Flush` times out
after 3 probes although an item is available. -/
theorem Flush_timer_checked_first_witness :
    ((schedBusy 10).nextWorkItem 3).isSome = true ∧
    ∃ w, Flush (schedBusy 10) { SearchPendingFor := 1, FlushCheckPeriod := 25 } (0 + 1 + 3) =
        some (.returned .timedOut, w) ∧
      w = flushWorldAt (schedBusy 10) 3 ∧ w.probes = 3 :=
  ⟨rfl, Flush_timer_checked_first (schedBusy 10) { SearchPendingFor := 1, FlushCheckPeriod := 25 }
    3 0 (by decide)
    (by intro k hk; interval_cases k <;> exact ⟨by decide, rfl⟩)
    (by decide)⟩

/-- C6 (as amended): for every `n`, if the work source yields `n` items and
then reports empty, and the flush timer has not fired at any of the first
`n + 1` timer checks, then `Flush` returns through the completion path after
exactly `n + 1` calls to `nextWorkItem`; the last timer check is made before
`FlushCheckPeriod` has elapsed and the return follows it by the duration of
the last probe, so the elapsed time is below `FlushCheckPeriod` plus that
duration. -/
theorem Flush_completes_when_empty (env : FlushEnv) (cfg : Config) (n fuel : Nat)
    (hitems : ∀ k, k < n → (env.nextWorkItem k).isSome = true)
    (hempty : env.nextWorkItem n = none)
    (htimer : ∀ k, k ≤ n → tickerFired env cfg (flushWorldAt env k) = false) :
    ∃ w, Flush env cfg (fuel + 1 + n) = some (.returned .complete, w) ∧
      w.probes = n + 1 ∧
      (flushWorldAt env n).now - env.start < cfg.FlushCheckPeriod ∧
      w.now = (flushWorldAt env n).now + env.probeCost n ∧
      w.now - env.start < cfg.FlushCheckPeriod + env.probeCost n := by
  have hlast := htimer n (Nat.le_refl n)
  have hfirst := htimer 0 (Nat.zero_le n)
  simp only [tickerFired, flushWorldAt, elapsedProbes, decide_eq_false_iff_not, not_le,
    Nat.cast_zero, add_zero] at hlast hfirst
  have hp : 0 < cfg.FlushCheckPeriod := by omega
  have hrun := FlushLoop_run env cfg (fuel + 1) n 0
    (fun k _ hk => ⟨htimer k (by omega), hitems k (by omega)⟩)
  simp only [Nat.zero_add] at hrun
  refine ⟨flushWorldAt env (n + 1), ?_, rfl, ?_, ?_, ?_⟩
  · rw [Flush_eq_loop env cfg _ hp, hrun]
    exact FlushLoop_complete env cfg fuel n (htimer n (Nat.le_refl n)) hempty
  · simp only [flushWorldAt]; omega
  · simp only [flushWorldAt, elapsedProbes]; push_cast; omega
  · simp only [flushWorldAt, elapsedProbes]; push_cast; omega

/-- C6 (counterexample): period 10, an empty work source whose probe takes
20; the timer has not fired at the only timer check, `Flush` returns through
the completion path after one probe, at instant 20, after `FlushCheckPeriod`
has elapsed. -/
theorem Flush_slow_probe_counterexample :
    (schedItems 0 20).nextWorkItem 0 = none ∧
    tickerFired (schedItems 0 20) { SearchPendingFor := 1, FlushCheckPeriod := 10 }
      (flushWorldAt (schedItems 0 20) 0) = false ∧
    Flush (schedItems 0 20) { SearchPendingFor := 1, FlushCheckPeriod := 10 } 1 =
      some (.returned .complete, { now := 20, probes := 1 }) ∧
    ¬ ((20 : Int) - (schedItems 0 20).start < 10) := by
  refine ⟨rfl, ?_, ?_, ?_⟩ <;> decide

/-- C6 (witness): period 200, three items then empty, every probe takes 5;
`Flush` completes after 4 probes at instant 20. -/
theorem Flush_completes_when_empty_witness :
    ∃ w, Flush (schedItems 3 5) { SearchPendingFor := 1, FlushCheckPeriod := 200 } (0 + 1 + 3) =
        some (.returned .complete, w) ∧
      w.probes = 3 + 1 ∧
      (flushWorldAt (schedItems 3 5) 3).now - (schedItems 3 5).start < 200 ∧
      w.now = (flushWorldAt (schedItems 3 5) 3).now + (schedItems 3 5).probeCost 3 ∧
      w.now - (schedItems 3 5).start < 200 + (schedItems 3 5).probeCost 3 :=
  Flush_completes_when_empty (schedItems 3 5) { SearchPendingFor := 1, FlushCheckPeriod := 200 }
    3 0
    (by intro k hk; interval_cases k <;> rfl)
    rfl
    (by intro k hk; interval_cases k <;> decide)

/-- C7: for every `FlushCheckPeriod > 0` and every work source that never
reports empty, where each probe takes a positive time of at most `d`: `Flush`
terminates, it returns through the timeout path, and its elapsed time `T`
satisfies `checkPeriod ≤ T < checkPeriod + d`. -/
theorem Flush_times_out_within_probe (env : FlushEnv) (cfg : Config) (d : Nat)
    (hp : 0 < cfg.FlushCheckPeriod)
    (hitems : ∀ k, (env.nextWorkItem k).isSome = true)
    (hcost : ∀ k, 0 < env.probeCost k ∧ env.probeCost k ≤ d) :
    ∃ N, ∀ fuel, N ≤ fuel → ∃ w,
      Flush env cfg fuel = some (.returned .timedOut, w) ∧
      cfg.FlushCheckPeriod ≤ w.now - env.start ∧
      w.now - env.start < cfg.FlushCheckPeriod + d := by
  have hex : ∃ n : Nat, cfg.FlushCheckPeriod ≤ (elapsedProbes env n : Int) := by
    refine ⟨cfg.FlushCheckPeriod.toNat, ?_⟩
    have h1 := elapsedProbes_ge env (fun k => (hcost k).1) cfg.FlushCheckPeriod.toNat
    have h2 : cfg.FlushCheckPeriod ≤ (cfg.FlushCheckPeriod.toNat : Int) := Int.self_le_toNat _
    omega
  classical
  have hspec := Nat.find_spec hex
  have hmin : ∀ k, k < Nat.find hex → (elapsedProbes env k : Int) < cfg.FlushCheckPeriod := by
    intro k hk
    have := Nat.find_min hex hk
    omega
  have hpos : 0 < Nat.find hex := by
    rcases Nat.eq_zero_or_pos (Nat.find hex) with h | h
    · rw [h] at hspec
      simp only [elapsedProbes, Nat.cast_zero] at hspec
      omega
    · exact h
  obtain ⟨j, hj⟩ : ∃ j, Nat.find hex = j + 1 := ⟨Nat.find hex - 1, by omega⟩
  have hprev := hmin j (by omega)
  rw [hj] at hspec
  simp only [elapsedProbes] at hspec
  refine ⟨j + 2, fun fuel hfuel => ⟨flushWorldAt env (j + 1), ?_, ?_, ?_⟩⟩
  · have hrun := FlushLoop_run env cfg (fuel - 1 - (j + 1) + 1) (j + 1) 0
      (fun k _ hk => ⟨by
        have := hmin k (by omega)
        simp only [tickerFired, flushWorldAt, decide_eq_false_iff_not, not_le]
        omega, hitems k⟩)
    simp only [Nat.zero_add] at hrun
    have hf : fuel - 1 - (j + 1) + 1 + (j + 1) = fuel := by omega
    rw [hf] at hrun
    rw [Flush_eq_loop env cfg _ hp, hrun]
    refine FlushLoop_timeout env cfg _ _ ?_
    simp only [tickerFired, flushWorldAt, elapsedProbes, decide_eq_true_eq]
    omega
  · simp only [flushWorldAt, elapsedProbes]
    omega
  · have := (hcost j).2
    simp only [flushWorldAt, elapsedProbes]
    push_cast at hspec ⊢
    omega

/-- C7 (witness): period 50, every probe takes 10 and finds an item; `Flush`
times out at an elapsed time in `[50, 60)`. -/
theorem Flush_times_out_within_probe_witness :
    ∃ N, ∀ fuel, N ≤ fuel → ∃ w,
      Flush (schedBusy 10) { SearchPendingFor := 1, FlushCheckPeriod := 50 } fuel =
        some (.returned .timedOut, w) ∧
      (50 : Int) ≤ w.now - (schedBusy 10).start ∧
      w.now - (schedBusy 10).start < 50 + (10 : Nat) :=
  Flush_times_out_within_probe (schedBusy 10) { SearchPendingFor := 1, FlushCheckPeriod := 50 } 10
    (by decide) (fun _ => rfl) (fun _ => ⟨(by decide : 0 < 10), (by decide : 10 ≤ 10)⟩)

end Ruler
